import Mathlib

/-
Verification development for the Actual-Budget-Normalizer row-normalization
pipeline.  The definitions below are a shallow embedding of the Python source:

  * app/agents/transaction_agent.py
      TransactionAgent._extract_and_normalize_json, _parse_csv_fallback,
      lookup_category_in_db, add_category_to_db, parse_transaction
  * app/workers/job_runner.py
      JobRunner.run_job

Modelling conventions:
  * Python str is modelled by Lean String (list of unicode scalar values); a
    Python string may hold lone surrogates which Lean Char cannot, such a
    character is modelled as the null character.
  * Python float is modelled by PyFloat: an exact rational, or one of the
    non-finite values inf, -inf, nan.  Decimal literals parse to the exact
    rational they denote (IEEE rounding and overflow-to-infinity of very
    large literals are not modelled; no claim depends on them).
  * The LLM transport is abstracted as a total function from the row that is
    sent to the raw text that comes back; raised Python exceptions are
    modelled by the error side of Except.
-/

set_option maxHeartbeats 1000000

namespace ABNorm

/-- Left brace character (written via its code point so that string literals in
this file stay plain text). -/
def lbrace : Char := Char.ofNat 123

/-- Right brace character. -/
def rbrace : Char := Char.ofNat 125

/-- Double-quote character. -/
def dquote : Char := Char.ofNat 34

/-- Single-quote character. -/
def squote : Char := Char.ofNat 39

/-- Backslash character. -/
def bslash : Char := Char.ofNat 92

/-- JSON inter-token whitespace accepted by Python json. -/
def isJsonWs (c : Char) : Bool := c = ' ' || c = '\t' || c = '\n' || c = '\r'

/-- Drop leading JSON whitespace. -/
def skipWs (cs : List Char) : List Char := cs.dropWhile isJsonWs

/-- JSON values as produced by Python json.loads: null, booleans, numbers
(ints and floats are distinct Python types), strings, arrays, objects. -/
inductive JVal where
  | jnull : JVal
  | jbool : Bool → JVal
  | jint : Int → JVal
  | jfloat : ℚ → JVal
  | jstr : String → JVal
  | jarr : List JVal → JVal
  | jobj : List (String × JVal) → JVal

/-- Value of a hexadecimal digit. -/
def hexVal (c : Char) : Option Nat :=
  if '0' ≤ c ∧ c ≤ '9' then some (c.toNat - 48)
  else if 'a' ≤ c ∧ c ≤ 'f' then some (c.toNat - 87)
  else if 'A' ≤ c ∧ c ≤ 'F' then some (c.toNat - 55)
  else none

/-- Read four hexadecimal digits (the payload of a JSON escape of the form
backslash-u). -/
def hex4 : List Char → Option (Nat × List Char)
  | a :: b :: c :: d :: rest =>
    match hexVal a, hexVal b, hexVal c, hexVal d with
    | some x, some y, some z, some w => some ((((x * 16 + y) * 16 + z) * 16 + w), rest)
    | _, _, _, _ => none
  | _ => none

/-- Parse the body of a JSON string literal (after the opening quote),
consuming the closing quote; returns the decoded characters and the remaining
input.  Fuel bounds the recursion and is instantiated with the input length.
Per Python json in its default strict mode, unescaped control characters are
rejected.  Escaped surrogate pairs are combined; a lone escaped surrogate
(which Python keeps as a lone surrogate character) maps to the null
character, see the modelling conventions above. -/
def parseStrBody : Nat → List Char → Option (List Char × List Char)
  | 0, _ => none
  | _ + 1, [] => none
  | fuel + 1, c :: rest =>
    if c = dquote then some ([], rest)
    else if c = bslash then
      match rest with
      | [] => none
      | e :: rest2 =>
        if e = dquote ∨ e = bslash ∨ e = '/' then
          (parseStrBody fuel rest2).map (fun p => (e :: p.1, p.2))
        else if e = 'b' then (parseStrBody fuel rest2).map (fun p => (Char.ofNat 8 :: p.1, p.2))
        else if e = 'f' then (parseStrBody fuel rest2).map (fun p => (Char.ofNat 12 :: p.1, p.2))
        else if e = 'n' then (parseStrBody fuel rest2).map (fun p => ('\n' :: p.1, p.2))
        else if e = 'r' then (parseStrBody fuel rest2).map (fun p => ('\r' :: p.1, p.2))
        else if e = 't' then (parseStrBody fuel rest2).map (fun p => ('\t' :: p.1, p.2))
        else if e = 'u' then
          match hex4 rest2 with
          | none => none
          | some (n, rest3) =>
            if 0xD800 ≤ n ∧ n ≤ 0xDBFF then
              match rest3 with
              | b1 :: u1 :: r4 =>
                if b1 = bslash ∧ u1 = 'u' then
                  match hex4 r4 with
                  | some (m, rest5) =>
                    if 0xDC00 ≤ m ∧ m ≤ 0xDFFF then
                      (parseStrBody fuel rest5).map
                        (fun p => (Char.ofNat (0x10000 + (n - 0xD800) * 0x400 + (m - 0xDC00)) :: p.1, p.2))
                    else (parseStrBody fuel rest3).map (fun p => (Char.ofNat n :: p.1, p.2))
                  | none => (parseStrBody fuel rest3).map (fun p => (Char.ofNat n :: p.1, p.2))
                else (parseStrBody fuel rest3).map (fun p => (Char.ofNat n :: p.1, p.2))
              | _ => (parseStrBody fuel rest3).map (fun p => (Char.ofNat n :: p.1, p.2))
            else (parseStrBody fuel rest3).map (fun p => (Char.ofNat n :: p.1, p.2))
        else none
    else if c.toNat < 32 then none
    else (parseStrBody fuel rest).map (fun p => (c :: p.1, p.2))

/-- Numeric value of a digit string. -/
def digitsToNat (cs : List Char) : Nat :=
  cs.foldl (fun a c => a * 10 + (c.toNat - 48)) 0

/-- The exact rational m times ten to the e, built with core rational
operations (so that concrete values evaluate inside the kernel). -/
def qScale (m : Int) (e : Int) : ℚ :=
  if 0 ≤ e then ((m * (10 : Int) ^ e.toNat : Int) : ℚ) else mkRat m ((10 : Nat) ^ (-e).toNat)

/-- Parse a JSON number token per the strict JSON grammar used by Python json
(optional minus sign; integer part without leading zeros; optional fraction
with at least one digit; optional exponent with at least one digit).  A token
with neither fraction nor exponent becomes a Python int, otherwise a float. -/
def parseNumTok (cs : List Char) : Option (JVal × List Char) :=
  let neg := cs.head? = some '-'
  let cs1 := if neg then cs.tail else cs
  match cs1.head? with
  | none => none
  | some d =>
    if ¬ d.isDigit then none
    else
      let ip := if d = '0' then ['0'] else cs1.takeWhile Char.isDigit
      let r1 := if d = '0' then cs1.tail else cs1.dropWhile Char.isDigit
      let hasDot := r1.head? = some '.'
      let afterDot := if hasDot then r1.tail else r1
      let fp := if hasDot then afterDot.takeWhile Char.isDigit else []
      let r2 := if hasDot then afterDot.dropWhile Char.isDigit else r1
      if hasDot ∧ fp = [] then none
      else
        let hasExp := r2.head? = some 'e' ∨ r2.head? = some 'E'
        let r3 := if hasExp then r2.tail else r2
        let esign := hasExp ∧ r3.head? = some '-'
        let r4 := if hasExp ∧ (r3.head? = some '+' ∨ r3.head? = some '-') then r3.tail else r3
        let ed := if hasExp then r4.takeWhile Char.isDigit else []
        let r5 := if hasExp then r4.dropWhile Char.isDigit else r2
        if hasExp ∧ ed = [] then none
        else if ¬ hasDot ∧ ¬ hasExp then
          some (JVal.jint (if neg then -(digitsToNat ip : Int) else (digitsToNat ip : Int)), r1)
        else
          let mant : Int := if neg then -(digitsToNat (ip ++ fp) : Int) else (digitsToNat (ip ++ fp) : Int)
          let e10 : Int := (if esign then -(digitsToNat ed : Int) else (digitsToNat ed : Int)) - (fp.length : Int)
          some (JVal.jfloat (qScale mant e10), r5)

/-- Consume an expected literal keyword. -/
def dropLit (lit : List Char) (cs : List Char) : Option (List Char) :=
  if lit.isPrefixOf cs then some (cs.drop lit.length) else none

mutual

/-- Recursive-descent JSON value parse (the shape Python json.loads
accepts).  Fuel strictly bounds the nesting depth and is instantiated with
the input length (nesting in a text cannot exceed its length). -/
def parseJVal : Nat → List Char → Option (JVal × List Char)
  | 0, _ => none
  | fuel + 1, cs =>
    match skipWs cs with
    | [] => none
    | c :: rest =>
      if c = dquote then
        match parseStrBody (rest.length + 1) rest with
        | some (body, r) => some (JVal.jstr (String.mk body), r)
        | none => none
      else if c = lbrace then
        match skipWs rest with
        | c2 :: r2 =>
          if c2 = rbrace then some (JVal.jobj [], r2)
          else
            match parseMembers fuel (c2 :: r2) with
            | some (kvs, r3) => some (JVal.jobj kvs, r3)
            | none => none
        | [] => none
      else if c = '[' then
        match skipWs rest with
        | c2 :: r2 =>
          if c2 = ']' then some (JVal.jarr [], r2)
          else
            match parseElems fuel (c2 :: r2) with
            | some (xs, r3) => some (JVal.jarr xs, r3)
            | none => none
        | [] => none
      else if c = 't' then
        match dropLit ['t', 'r', 'u', 'e'] (c :: rest) with
        | some r => some (JVal.jbool true, r)
        | none => none
      else if c = 'f' then
        match dropLit ['f', 'a', 'l', 's', 'e'] (c :: rest) with
        | some r => some (JVal.jbool false, r)
        | none => none
      else if c = 'n' then
        match dropLit ['n', 'u', 'l', 'l'] (c :: rest) with
        | some r => some (JVal.jnull, r)
        | none => none
      else parseNumTok (c :: rest)

/-- Comma-separated array elements followed by a closing bracket. -/
def parseElems : Nat → List Char → Option (List JVal × List Char)
  | 0, _ => none
  | fuel + 1, cs =>
    match parseJVal fuel cs with
    | none => none
    | some (v, r) =>
      match skipWs r with
      | c :: r2 =>
        if c = ',' then
          match parseElems fuel r2 with
          | some (xs, r3) => some (v :: xs, r3)
          | none => none
        else if c = ']' then some ([v], r2)
        else none
      | [] => none

/-- Comma-separated object members followed by a closing brace. -/
def parseMembers : Nat → List Char → Option (List (String × JVal) × List Char)
  | 0, _ => none
  | fuel + 1, cs =>
    match skipWs cs with
    | c :: rest =>
      if c = dquote then
        match parseStrBody (rest.length + 1) rest with
        | some (key, r) =>
          match skipWs r with
          | c2 :: r2 =>
            if c2 = ':' then
              match parseJVal fuel r2 with
              | some (v, r3) =>
                match skipWs r3 with
                | c3 :: r4 =>
                  if c3 = ',' then
                    match parseMembers fuel r4 with
                    | some (kvs, r5) => some ((String.mk key, v) :: kvs, r5)
                    | none => none
                  else if c3 = rbrace then some ([(String.mk key, v)], r4)
                  else none
                | [] => none
              | none => none
            else none
          | [] => none
        | none => none
      else none
    | [] => none

end

/-- json.loads applied to one candidate substring, required to yield a JSON
object with nothing but whitespace after it (json.loads rejects trailing
junk).  Candidates always start with a left brace, so a successful load is
always a dict; its members are kept in order of appearance. -/
def jsonParseObj (s : String) : Option (List (String × JVal)) :=
  match parseJVal (s.length + 1) s.data with
  | some (JVal.jobj kvs, rest) => if skipWs rest = [] then some kvs else none
  | _ => none

/-- Scanner state for the non-greedy regex finditer over the raw model text:
the accumulator holds the characters (reversed) of a candidate opened by a
left brace and not yet closed. -/
def findCandsAux : List Char → Option (List Char) → List (List Char)
  | [], _ => []
  | c :: rest, none =>
    if c = lbrace then findCandsAux rest (some [c]) else findCandsAux rest none
  | c :: rest, some acc =>
    if c = rbrace then ((c :: acc).reverse) :: findCandsAux rest none
    else findCandsAux rest (some (c :: acc))

/-- All candidate substrings found by re.finditer with the pattern
left-brace, non-greedy dot-all, right-brace: each candidate runs from a left
brace to the nearest following right brace, scanning left to right without
overlap. -/
def findCandidates (raw : String) : List String :=
  (findCandsAux raw.data none).map String.mk

/-- Comma-space joined list, as Python uses when printing containers. -/
def joinComma (xs : List String) : String := String.intercalate ", " xs

/-- Number of decimal fraction digits needed to write a rational exactly
(capped); only used for the textual form of floats, on which no claim
depends. -/
def floatFracDigits (q : ℚ) : Nat :=
  ((List.range 65).find? (fun k => (q * (10 : ℚ) ^ k).den == 1 && k != 0)).getD 64

/-- Left-pad with zeros to a given width. -/
def padLeftZeros (s : String) (k : Nat) : String :=
  String.mk (List.replicate (k - s.length) '0') ++ s

/-- Python str(float).  Python prints the shortest round-tripping decimal;
the model prints the exact decimal expansion of the rational (no claim
depends on the textual form of a float). -/
def floatRepr (q : ℚ) : String :=
  let sign := if q < 0 then "-" else ""
  let a : ℚ := |q|
  if a.den = 1 then sign ++ toString a.num ++ ".0"
  else
    let k := floatFracDigits a
    let scaled : Nat := (a * (10 : ℚ) ^ k).num.toNat
    sign ++ toString (scaled / 10 ^ k) ++ "." ++ padLeftZeros (toString (scaled % 10 ^ k)) k

mutual

/-- Python repr of a decoded JSON value, used by str() on containers.
String quoting subtleties of repr (escape selection) are not modelled; no
claim depends on the textual form of containers. -/
def pyReprV : JVal → String
  | JVal.jnull => "None"
  | JVal.jbool b => if b then "True" else "False"
  | JVal.jint n => toString n
  | JVal.jfloat q => floatRepr q
  | JVal.jstr s => String.singleton squote ++ s ++ String.singleton squote
  | JVal.jarr xs => "[" ++ joinComma (pyReprL xs) ++ "]"
  | JVal.jobj kvs => String.singleton lbrace ++ joinComma (pyReprKV kvs) ++ String.singleton rbrace

/-- repr of each element of a list value. -/
def pyReprL : List JVal → List String
  | [] => []
  | v :: vs => pyReprV v :: pyReprL vs

/-- repr of each member of a dict value. -/
def pyReprKV : List (String × JVal) → List String
  | [] => []
  | (k, v) :: kvs =>
    (String.singleton squote ++ k ++ String.singleton squote ++ ": " ++ pyReprV v) :: pyReprKV kvs

end

/-- Python str() of a decoded JSON value: strings pass through unchanged,
None / True / False / numbers print the Python way, containers print via
repr of their elements.  This models the defensive str() conversion applied
to non-string fields before sanitization. -/
def pyStrV : JVal → String
  | JVal.jnull => "None"
  | JVal.jbool b => if b then "True" else "False"
  | JVal.jint n => toString n
  | JVal.jfloat q => floatRepr q
  | JVal.jstr s => s
  | JVal.jarr xs => "[" ++ joinComma (pyReprL xs) ++ "]"
  | JVal.jobj kvs => String.singleton lbrace ++ joinComma (pyReprKV kvs) ++ String.singleton rbrace

/-- The characters the sanitization keeps: capital letters, digits, space. -/
def isCanonChar (c : Char) : Bool :=
  if ('A' ≤ c ∧ c ≤ 'Z') ∨ ('0' ≤ c ∧ c ≤ '9') ∨ c = ' ' then true else false

/-- The composition NFKD-normalize then encode-ASCII-ignore, per character.
ASCII characters are NFKD-invariant and survive the encode unchanged.  For
non-ASCII characters a representative table of common Latin letters with
diacritics yields the base letter left after the combining mark is dropped
by the ASCII encode; any other non-ASCII character is dropped entirely,
which is what encode-ignore does to characters without an ASCII-compatible
decomposition. -/
def nfkdAsciiChar (c : Char) : List Char :=
  if c.toNat < 128 then [c]
  else if c = 'á' ∨ c = 'à' ∨ c = 'â' ∨ c = 'ã' ∨ c = 'ä' ∨ c = 'å' then ['a']
  else if c = 'Á' ∨ c = 'À' ∨ c = 'Â' ∨ c = 'Ã' ∨ c = 'Ä' ∨ c = 'Å' then ['A']
  else if c = 'é' ∨ c = 'è' ∨ c = 'ê' ∨ c = 'ë' then ['e']
  else if c = 'É' ∨ c = 'È' ∨ c = 'Ê' ∨ c = 'Ë' then ['E']
  else if c = 'í' ∨ c = 'ì' ∨ c = 'î' ∨ c = 'ï' then ['i']
  else if c = 'Í' ∨ c = 'Ì' ∨ c = 'Î' ∨ c = 'Ï' then ['I']
  else if c = 'ó' ∨ c = 'ò' ∨ c = 'ô' ∨ c = 'õ' ∨ c = 'ö' then ['o']
  else if c = 'Ó' ∨ c = 'Ò' ∨ c = 'Ô' ∨ c = 'Õ' ∨ c = 'Ö' then ['O']
  else if c = 'ú' ∨ c = 'ù' ∨ c = 'û' ∨ c = 'ü' then ['u']
  else if c = 'Ú' ∨ c = 'Ù' ∨ c = 'Û' ∨ c = 'Ü' then ['U']
  else if c = 'ç' then ['c']
  else if c = 'Ç' then ['C']
  else if c = 'ñ' then ['n']
  else if c = 'Ñ' then ['N']
  else if c = 'ý' ∨ c = 'ÿ' then ['y']
  else if c = 'Ý' then ['Y']
  else []

/-- The unconditional string-field sanitization of
_extract_and_normalize_json: NFKD-normalize, encode to ASCII ignoring
unencodable characters, upper-case, then keep only capital letters, digits
and spaces. -/
def sanitizePy (s : String) : String :=
  let folded := (s.data.map nfkdAsciiChar).flatten
  let upped := folded.map Char.toUpper
  String.mk (upped.filter isCanonChar)

/-- Python str.upper(), as an ASCII character fold (Python upper is
Unicode-aware; the payee and category strings the source upper-cases are
compared case-insensitively and the ASCII fold models that comparison). -/
def pyUpper (s : String) : String := String.mk (s.data.map Char.toUpper)

/-- Python float values: an exact rational for a finite value, or one of the
three non-finite values. -/
inductive PyFloat where
  | finite : ℚ → PyFloat
  | inf : PyFloat
  | negInf : PyFloat
  | nan : PyFloat
deriving DecidableEq

/-- The whitespace str.strip and float(str) remove at both ends. -/
def isPyWs (c : Char) : Bool :=
  c = ' ' || c = '\t' || c = '\n' || c = '\r' || c = Char.ofNat 11 || c = Char.ofNat 12

/-- strip at both ends of a character list. -/
def pyStripChars (cs : List Char) : List Char :=
  ((cs.dropWhile isPyWs).reverse.dropWhile isPyWs).reverse

/-- Python str.strip(). -/
def pyStrip (s : String) : String := String.mk (pyStripChars s.data)

/-- Python float(str): strip whitespace; an optional sign; the words inf,
infinity, nan (case-insensitive) give the non-finite values; otherwise a
decimal literal whose integer part or fraction part may be absent but not
both, with an optional signed exponent; anything else raises ValueError
(modelled as none).  Digit-group underscores and the overflow of very large
literals to infinity are not modelled (no claim depends on them). -/
def pyFloatOfString (s : String) : Option PyFloat :=
  let t := pyStripChars s.data
  let neg := t.head? = some '-'
  let b := if t.head? = some '-' ∨ t.head? = some '+' then t.tail else t
  let lower := b.map Char.toLower
  if lower = ['i', 'n', 'f'] ∨ lower = ['i', 'n', 'f', 'i', 'n', 'i', 't', 'y'] then
    some (if neg then PyFloat.negInf else PyFloat.inf)
  else if lower = ['n', 'a', 'n'] then some PyFloat.nan
  else
    let ip := b.takeWhile Char.isDigit
    let r1 := b.dropWhile Char.isDigit
    let hasDot := r1.head? = some '.'
    let afterDot := if hasDot then r1.tail else r1
    let fp := if hasDot then afterDot.takeWhile Char.isDigit else []
    let r2 := if hasDot then afterDot.dropWhile Char.isDigit else r1
    if ip = [] ∧ fp = [] then none
    else
      let hasExp := r2.head? = some 'e' ∨ r2.head? = some 'E'
      let r3 := if hasExp then r2.tail else r2
      let esign := hasExp ∧ r3.head? = some '-'
      let r4 := if hasExp ∧ (r3.head? = some '+' ∨ r3.head? = some '-') then r3.tail else r3
      let ed := if hasExp then r4.takeWhile Char.isDigit else []
      let r5 := if hasExp then r4.dropWhile Char.isDigit else r2
      if hasExp ∧ ed = [] then none
      else if r5 ≠ [] then none
      else
        let mant : Int :=
          if neg then -(digitsToNat (ip ++ fp) : Int) else (digitsToNat (ip ++ fp) : Int)
        let e10 : Int :=
          (if esign then -(digitsToNat ed : Int) else (digitsToNat ed : Int)) - (fp.length : Int)
        some (PyFloat.finite (qScale mant e10))

/-- float(x) on a decoded JSON value: ints, floats and booleans convert,
strings parse, None and containers raise TypeError (modelled as none). -/
def pyFloatOfJVal : JVal → Option PyFloat
  | JVal.jint n => some (PyFloat.finite (n : ℚ))
  | JVal.jfloat q => some (PyFloat.finite q)
  | JVal.jbool b => some (PyFloat.finite (if b then 1 else 0))
  | JVal.jstr s => pyFloatOfString s
  | _ => none

/-- The canonical transaction record (the pydantic Transaction model). -/
structure TxnRecord where
  date : String
  payee : String
  notes : String
  category : String
  amount : PyFloat
deriving DecidableEq

/-- Python dict lookup on a decoded JSON object: a later duplicate key
overwrites an earlier one, as in the dict json.loads builds. -/
def jget : List (String × JVal) → String → Option JVal
  | [], _ => none
  | kv :: rest, k =>
    match jget rest k with
    | some v => some v
    | none => if kv.1 = k then some kv.2 else none

/-- Key membership in the decoded object. -/
def hasKey (kvs : List (String × JVal)) (k : String) : Bool :=
  kvs.any (fun kv => kv.1 = k)

/-- The five required keys, in the order the source checks them. -/
def requiredFields : List String := ["date", "payee", "notes", "category", "amount"]

/-- The first required key missing from the decoded object (the key whose
check raises), if any. -/
def firstMissing (kvs : List (String × JVal)) : Option String :=
  requiredFields.find? (fun k => !(hasKey kvs k))

/-- The defensive null-to-empty-string coercion applied to notes and
category. -/
def nullToEmpty : JVal → JVal
  | JVal.jnull => JVal.jstr ""
  | v => v

/-- One sanitized string field: a non-string value is first converted with
str(). -/
def sanitizeVal (v : JVal) : String := sanitizePy (pyStrV v)

/-- Missing-required-key ValueError text (the source also interpolates the
decoded data; the model keeps a fixed prefix). -/
def missingMsg (fld : String) : String := "Missing field " ++ fld ++ " in LLM JSON output"

/-- Amount-coercion ValueError text (the source also interpolates the
offending value). -/
def amountMsg : String := "Could not convert amount to float"

/-- Field normalization applied to the first successfully decoded object,
after the required-keys check passed: null-coerce notes and category,
sanitize the four string fields, coerce amount to float (fatal on
failure). -/
def mkJsonTxn (kvs : List (String × JVal)) : Except String TxnRecord :=
  let vd := (jget kvs "date").getD JVal.jnull
  let vp := (jget kvs "payee").getD JVal.jnull
  let vn := nullToEmpty ((jget kvs "notes").getD JVal.jnull)
  let vc := nullToEmpty ((jget kvs "category").getD JVal.jnull)
  match pyFloatOfJVal ((jget kvs "amount").getD JVal.jnull) with
  | none => Except.error amountMsg
  | some f =>
    Except.ok (TxnRecord.mk (sanitizeVal vd) (sanitizeVal vp) (sanitizeVal vn) (sanitizeVal vc) f)

/-- Decidable equality of fallible results, used to evaluate the concrete
examples below. -/
instance exceptDecEq {ε α : Type} [DecidableEq ε] [DecidableEq α] :
    DecidableEq (Except ε α) := fun x y =>
  match x, y with
  | Except.ok a, Except.ok b =>
    if h : a = b then Decidable.isTrue (by rw [h])
    else Decidable.isFalse (by intro hc; cases hc; exact h rfl)
  | Except.error a, Except.error b =>
    if h : a = b then Decidable.isTrue (by rw [h])
    else Decidable.isFalse (by intro hc; cases hc; exact h rfl)
  | Except.ok _, Except.error _ => Decidable.isFalse (by intro hc; cases hc)
  | Except.error _, Except.ok _ => Decidable.isFalse (by intro hc; cases hc)

/-- Outcome of _extract_and_normalize_json: a record or raised ValueError
(found), or None because no candidate parsed (nothing), upon which the
caller falls back to CSV extraction. -/
inductive ExtractOut where
  | found : Except String TxnRecord → ExtractOut
  | nothing : ExtractOut
deriving DecidableEq

/-- The candidate loop of _extract_and_normalize_json: skip candidates that
fail json.loads; the first one that parses is final — a missing required
key raises, otherwise the record is built from it. -/
def extractLoop : List String → ExtractOut
  | [] => ExtractOut.nothing
  | c :: rest =>
    match jsonParseObj c with
    | none => extractLoop rest
    | some kvs =>
      match firstMissing kvs with
      | some fld => ExtractOut.found (Except.error (missingMsg fld))
      | none => ExtractOut.found (mkJsonTxn kvs)

/-- TransactionAgent._extract_and_normalize_json. -/
def extractJson (raw : String) : ExtractOut :=
  extractLoop (findCandidates raw)

/-- Python str.splitlines restricted to the line breaks that occur in model
text (newline, carriage return, CRLF); a trailing break yields no final
empty line, matching Python. -/
def splitLinesAux : List Char → List Char → List String
  | [], cur => if cur = [] then [] else [String.mk cur.reverse]
  | '\r' :: '\n' :: rest, cur => String.mk cur.reverse :: splitLinesAux rest []
  | '\r' :: rest, cur => String.mk cur.reverse :: splitLinesAux rest []
  | '\n' :: rest, cur => String.mk cur.reverse :: splitLinesAux rest []
  | c :: rest, cur => splitLinesAux rest (c :: cur)

/-- str.splitlines on the raw model text. -/
def splitLines (s : String) : List String := splitLinesAux s.data []

/-- States of the csv.reader field scanner. -/
inductive CsvSt where
  | start : CsvSt
  | inField : CsvSt
  | inQuoted : CsvSt
  | quoteInQuoted : CsvSt

/-- One row parsed as by Python csv.reader with the default dialect
(delimiter comma, double-quote quoting, doubled quotes inside a quoted
field, strict off): a state machine over the characters of the line; at end
of input the pending field is emitted whatever the state (the non-strict
treatment of an unterminated quote). -/
def csvRunAux : List Char → CsvSt → List Char → List String → List String
  | [], _, cur, acc => (String.mk cur.reverse :: acc).reverse
  | c :: rest, CsvSt.start, cur, acc =>
    if c = dquote then csvRunAux rest CsvSt.inQuoted cur acc
    else if c = ',' then csvRunAux rest CsvSt.start [] (String.mk cur.reverse :: acc)
    else csvRunAux rest CsvSt.inField (c :: cur) acc
  | c :: rest, CsvSt.inField, cur, acc =>
    if c = ',' then csvRunAux rest CsvSt.start [] (String.mk cur.reverse :: acc)
    else csvRunAux rest CsvSt.inField (c :: cur) acc
  | c :: rest, CsvSt.inQuoted, cur, acc =>
    if c = dquote then csvRunAux rest CsvSt.quoteInQuoted cur acc
    else csvRunAux rest CsvSt.inQuoted (c :: cur) acc
  | c :: rest, CsvSt.quoteInQuoted, cur, acc =>
    if c = dquote then csvRunAux rest CsvSt.inQuoted (c :: cur) acc
    else if c = ',' then csvRunAux rest CsvSt.start [] (String.mk cur.reverse :: acc)
    else csvRunAux rest CsvSt.inField (c :: cur) acc

/-- Fields of one CSV line. -/
def csvParseLine (s : String) : List String := csvRunAux s.data CsvSt.start [] []

/-- ValueError text for an output with no non-empty line. -/
def noLinesMsg : String := "No non-empty lines in LLM output."

/-- ValueError text for a field-count mismatch. -/
def fieldCountMsg : String := "Expected 5 fields in CSV row"

/-- ValueError text for the uncaught float() failure on the fifth field. -/
def csvAmountMsg : String := "could not convert string to float"

/-- The last non-empty line of the raw text after stripping each line, the
line the CSV fallback feeds to csv.reader. -/
def lastLine (raw : String) : Option String :=
  (((splitLines raw).map pyStrip).filter (fun l => l ≠ "")).getLast?

/-- TransactionAgent._parse_csv_fallback: take the last non-empty (stripped)
line, CSV-parse it, require exactly five fields, coerce the fifth to float
(the float() ValueError is not caught there and fails the row), and build
the record with the fields otherwise exactly as parsed — no sanitization on
this path. -/
def parseCsvFallback (raw : String) : Except String TxnRecord :=
  match lastLine raw with
  | none => Except.error noLinesMsg
  | some row =>
    let fields := csvParseLine row
    if fields.length = 5 then
      match pyFloatOfString (fields.getD 4 "") with
      | none => Except.error csvAmountMsg
      | some f =>
        Except.ok
          (TxnRecord.mk (fields.getD 0 "") (fields.getD 1 "") (fields.getD 2 "") (fields.getD 3 "") f)
    else Except.error fieldCountMsg

/-- The extraction part of TransactionAgent._parse_transaction applied to
the accumulated model text: JSON extraction first; the CSV fallback runs
only when no candidate parsed; a raised ValueError propagates. -/
def parseModelOutput (raw : String) : Except String TxnRecord :=
  match extractJson raw with
  | ExtractOut.found r => r
  | ExtractOut.nothing => parseCsvFallback raw

/-- Boolean prefix test on character lists. -/
def isPrefB : List Char → List Char → Bool
  | [], _ => true
  | _ :: _, [] => false
  | a :: as, b :: bs => if a = b then isPrefB as bs else false

/-- Boolean substring test: the needle occurs contiguously in the
haystack. -/
def containsSub (needle : List Char) : List Char → Bool
  | [] => needle.isEmpty
  | c :: rest => isPrefB needle (c :: rest) || containsSub needle rest

/-- TransactionAgent.lookup_category_in_db.  The Category table is modelled
as its list of (payee, category) rows in storage order.  The ILIKE filter
with wildcards around the upper-cased query holds of a row exactly when the
query occurs as a substring of the row payee, case-insensitively (LIKE
wildcard characters occurring inside the payee text itself are not
modelled); first() takes the first matching row in storage order; a hit is
returned upper-cased. -/
def lookup_category_in_db (db : List (String × String)) (payee : String) : Option String :=
  let pu := pyUpper payee
  match db.find? (fun e => containsSub pu.data (pyUpper e.1).data) with
  | some e => some (pyUpper e.2)
  | none => none

/-- TransactionAgent.add_category_to_db: insert the pair only when no row
with exactly this payee string exists (the dedup check is exact string
equality, not case-insensitive); a new row is appended at the end of the
table. -/
def add_category_to_db (db : List (String × String)) (payee category : String) :
    List (String × String) :=
  if db.any (fun e => e.1 = payee) then db else db ++ [(payee, category)]

/-- The category stored under an exact payee key, if any. -/
def exactVal (db : List (String × String)) (payee : String) : Option String :=
  (db.find? (fun e => e.1 = payee)).map (fun e => e.2)

/-- dict get with a default, on a row modelled as a list of key-value
pairs with distinct keys (values carried as their str() images). -/
def dictGetD (row : List (String × String)) (k : String) (dflt : String) : String :=
  match row.find? (fun e => e.1 = k) with
  | some e => e.2
  | none => dflt

/-- dict item assignment: replace the value of an existing key in place,
else append the new key at the end. -/
def dictSet : List (String × String) → String → String → List (String × String)
  | [], k, v => [(k, v)]
  | e :: rest, k, v => if e.1 = k then (k, v) :: rest else e :: dictSet rest k v

/-- Observable effect of one TransactionAgent.parse_transaction call: the
returned record or raised error, the Category table afterwards, the row as
it stood when the model request was built, and the add_category_to_db calls
made (pairs payee, category). -/
structure AgentStep where
  result : Except String TxnRecord
  dbAfter : List (String × String)
  sentRow : List (String × String)
  recorded : List (String × String)

/-- The upper-cased payee hint str(row.get("payee", "")).upper() derived
from the raw row. -/
def payeeHint (row : List (String × String)) : String := pyUpper (dictGetD row "payee" "")

/-- TransactionAgent.parse_transaction.  The model transport is abstracted
as a total function llm from the row that is sent (after the category
pre-seed) to the accumulated raw response text; _parse_transaction then
extracts the record from that text.  Python truthiness governs both the
pre-seed (a found category equal to the empty string is treated as no hit)
and the learn-back condition. -/
def parse_transaction (llm : List (String × String) → String)
    (db : List (String × String)) (row : List (String × String)) : AgentStep :=
  let payee := payeeHint row
  let dbCat := lookup_category_in_db db payee
  let seeded : Bool := dbCat.getD "" != ""
  let row1 := if seeded then dictSet row "category" (dbCat.getD "") else row
  match parseModelOutput (llm row1) with
  | Except.error m => AgentStep.mk (Except.error m) db row1 []
  | Except.ok txn =>
    if seeded = false ∧ txn.category ≠ "" then
      AgentStep.mk (Except.ok txn) (add_category_to_db db payee txn.category) row1
        [(payee, txn.category)]
    else AgentStep.mk (Except.ok txn) db row1 []

/-- Job bookkeeping and run artifacts: the status-row fields the runner
mutates, the two backing files of known categories and payees, and the
uploaded output table (one slot per input row). -/
structure JobState where
  status : String
  errMsg : Option String
  completedAt : Bool
  catsFile : List String
  paysFile : List String
  output : Option (List (Option TxnRecord))
deriving DecidableEq

/-- Job marked error with a message and a completion timestamp, everything
else untouched. -/
def markError (st : JobState) (m : String) : JobState :=
  JobState.mk "error" (some m) true st.catsFile st.paysFile st.output

/-- The result-collection loop over as_completed: each finished row is
written into the result slot of its original index (not of its completion
rank); the first failed future re-raises its exception, aborting the
collection. -/
def collectLoop (rows : List (Except String TxnRecord)) :
    List Nat → List (Option TxnRecord) → Except String (List (Option TxnRecord))
  | [], acc => Except.ok acc
  | i :: rest, acc =>
    match rows.getD i (Except.error "index out of range") with
    | Except.ok t => collectLoop rows rest (acc.set i (some t))
    | Except.error m => Except.error m

/-- The in-run category-set update a worker performs after its row
normalizes: append a non-empty category not yet present. -/
def updCats (cats : List String) (t : TxnRecord) : List String :=
  if t.category ≠ "" ∧ ¬ t.category ∈ cats then cats ++ [t.category] else cats

/-- The same update for payees. -/
def updPays (pays : List String) (t : TxnRecord) : List String :=
  if t.payee ≠ "" ∧ ¬ t.payee ∈ pays then pays ++ [t.payee] else pays

/-- The in-memory category/payee sets accumulated over the rows that
completed, taken in completion order (the workers mutate the shared lists
as each row finishes). -/
def foldSets (rows : List (Except String TxnRecord)) (order : List Nat)
    (cats pays : List String) : List String × List String :=
  order.foldl
    (fun cp i =>
      match rows.getD i (Except.error "index out of range") with
      | Except.ok t => (updCats cp.1 t, updPays cp.2 t)
      | Except.error _ => cp)
    (cats, pays)

/-- Stand-in for str(exc) of a failed output upload (the source records the
exception text). -/
def uploadFailMsg : String := "failed to upload output"

/-- JobRunner.run_job.  inputRes is the outcome of downloading and parsing
the input table, carrying the per-row normalization results the agent
produces (a per-row error models the exception raised inside process_row);
order is the order in which the concurrent futures complete; uploadOk tells
whether the final save of the output table to the sink succeeds.  The
status row moves to in_progress, then any exception caught by the outer
handler marks the job error with the message and a completion timestamp; on
success the two backing files are rewritten, then the output is uploaded
and the job completes.  The backing files are rewritten before the upload
is attempted, as in the source. -/
def run_job (inputRes : Except String (List (Except String TxnRecord)))
    (order : List Nat) (uploadOk : Bool) (st : JobState) : JobState :=
  let st1 := JobState.mk "in_progress" st.errMsg st.completedAt st.catsFile st.paysFile st.output
  match inputRes with
  | Except.error m => markError st1 m
  | Except.ok rows =>
    match collectLoop rows order (List.replicate rows.length none) with
    | Except.error m => markError st1 m
    | Except.ok slots =>
      let cp := foldSets rows order st.catsFile st.paysFile
      if uploadOk then JobState.mk "completed" st1.errMsg true cp.1 cp.2 (some slots)
      else JobState.mk "error" (some uploadFailMsg) true cp.1 cp.2 st.output

/-! Helper lemmas about the extraction pipeline. -/

/-- A dict lookup that hits witnesses key membership. -/
theorem hasKey_of_jget {kvs : List (String × JVal)} {k : String} {v : JVal}
    (h : jget kvs k = some v) : hasKey kvs k = true := by
  induction kvs generalizing v with
  | nil => simp [jget] at h
  | cons e rest ih =>
    simp only [jget] at h
    simp only [hasKey, List.any_cons]
    cases hr : jget rest k with
    | some w =>
      have hk := ih hr
      simp only [hasKey] at hk
      simp [hk]
    | none =>
      rw [hr] at h
      by_cases he : e.1 = k
      · simp [he]
      · simp [he] at h

/-- When all five required keys are present the required-keys check
passes. -/
theorem firstMissing_none {kvs : List (String × JVal)}
    (h1 : hasKey kvs "date" = true) (h2 : hasKey kvs "payee" = true)
    (h3 : hasKey kvs "notes" = true) (h4 : hasKey kvs "category" = true)
    (h5 : hasKey kvs "amount" = true) : firstMissing kvs = none := by
  simp [firstMissing, requiredFields, List.find?, h1, h2, h3, h4, h5]

/-- Candidates that fail to decode are skipped without affecting the
outcome. -/
theorem extractLoop_append_none (cs₁ cs₂ : List String)
    (h : ∀ c ∈ cs₁, jsonParseObj c = none) :
    extractLoop (cs₁ ++ cs₂) = extractLoop cs₂ := by
  induction cs₁ with
  | nil => rfl
  | cons c rest ih =>
    have hc : jsonParseObj c = none := h c (by simp)
    simp only [List.cons_append, extractLoop, hc]
    exact ih (fun x hx => h x (by simp [hx]))

/-- When no candidate decodes, the JSON layer yields nothing. -/
theorem extractLoop_all_none {cs : List String}
    (h : ∀ c ∈ cs, jsonParseObj c = none) : extractLoop cs = ExtractOut.nothing := by
  have h2 := extractLoop_append_none cs [] h
  simpa using h2

/-- A text with no candidate at all vacuously has no decoding candidate. -/
theorem no_candidates_none {raw : String} (h : findCandidates raw = []) :
    ∀ c ∈ findCandidates raw, jsonParseObj c = none := by
  rw [h]
  simp

/-! C1: behaviour on a text with exactly one brace-delimited candidate that
decodes with all five keys. -/

/-- A model text that satisfies the hypothesis of C1: one JSON object, all
five keys, lower-case payee, null notes and category. -/
def c1text : String :=
  "\x7b\"date\": \"2024-01-01\", \"payee\": \"acme\", \"notes\": null, \"category\": null, \"amount\": 1\x7d"

/-- The decoded members of c1text. -/
def c1kvs : List (String × JVal) :=
  [("date", JVal.jstr "2024-01-01"), ("payee", JVal.jstr "acme"), ("notes", JVal.jnull),
   ("category", JVal.jnull), ("amount", JVal.jint 1)]

/-- C1 (as frozen, refuted): the claim says the returned fields equal the
JSON values (null notes and category mapped to the empty string).  On
c1text — exactly one brace-delimited candidate, decoding with all five keys
— the code returns payee ACME, not the JSON value acme: the extractor
sanitizes unconditionally (and the date loses its hyphens as well). -/
theorem c1_counterexample :
    findCandidates c1text = [c1text]
    ∧ jsonParseObj c1text = some c1kvs
    ∧ firstMissing c1kvs = none
    ∧ parseModelOutput c1text =
        Except.ok (TxnRecord.mk "20240101" "ACME" "" "" (PyFloat.finite 1))
    ∧ "ACME" ≠ "acme" := by
  refine ⟨by decide, rfl, rfl, by decide, by decide⟩

/-- C1 (amended): for every model text with exactly one brace-delimited
candidate, decoding as a JSON object carrying all five required keys, and
whose amount value coerces to a float, the Extractor returns the record
whose four string fields are the sanitized (NFKD → ASCII → upper-case →
A-Z 0-9 space) string forms of the JSON values — null notes and category
first replaced by the empty string — and whose amount is the float
coercion of the amount value. -/
theorem c1_single_candidate (raw c : String) (kvs : List (String × JVal))
    (vd vp vn vc va : JVal) (f : PyFloat)
    (hc : findCandidates raw = [c])
    (hp : jsonParseObj c = some kvs)
    (h1 : jget kvs "date" = some vd) (h2 : jget kvs "payee" = some vp)
    (h3 : jget kvs "notes" = some vn) (h4 : jget kvs "category" = some vc)
    (h5 : jget kvs "amount" = some va)
    (hf : pyFloatOfJVal va = some f) :
    parseModelOutput raw =
      Except.ok (TxnRecord.mk (sanitizeVal vd) (sanitizeVal vp)
        (sanitizeVal (nullToEmpty vn)) (sanitizeVal (nullToEmpty vc)) f) := by
  have hm : firstMissing kvs = none :=
    firstMissing_none (hasKey_of_jget h1) (hasKey_of_jget h2) (hasKey_of_jget h3)
      (hasKey_of_jget h4) (hasKey_of_jget h5)
  unfold parseModelOutput extractJson
  rw [hc]
  simp [extractLoop, hp, hm, mkJsonTxn, h1, h2, h3, h4, h5, hf]

/-- Witness for C1 (amended) at c1text. -/
theorem c1_single_candidate_witness :
    parseModelOutput c1text =
      Except.ok (TxnRecord.mk "20240101" "ACME" "" "" (PyFloat.finite 1)) := by
  have h := c1_single_candidate c1text c1text c1kvs
    (JVal.jstr "2024-01-01") (JVal.jstr "acme") JVal.jnull JVal.jnull (JVal.jint 1)
    (PyFloat.finite 1) (by decide) rfl rfl rfl rfl rfl rfl (by decide)
  exact h.trans (by decide)

/-! C2: a missing required key in the first decoded candidate is fatal. -/

/-- A candidate that does not decode. -/
def c2cand1 : String := "\x7bjunk\x7d"

/-- The first candidate that decodes; it misses the key payee. -/
def c2cand2 : String := "\x7b\"date\": 1\x7d"

/-- A later candidate that would decode with all five keys. -/
def c2cand3 : String :=
  "\x7b\"date\": \"d\", \"payee\": \"p\", \"notes\": \"n\", \"category\": \"c\", \"amount\": 2\x7d"

/-- Text whose candidates are the three above, in that order. -/
def c2text : String := c2cand1 ++ " " ++ c2cand2 ++ " " ++ c2cand3

/-- C2 (confirmed): whenever the first candidate that decodes misses a
required key, the whole extraction fails with the missing-key error —
whatever the later candidates hold (they appear as the unconstrained tail
cs₂), so no later candidate is tried, no default is substituted, and the
CSV fallback does not run (the outcome is the raised error, not a
CSV-derived record). -/
theorem c2_missing_key_fatal (raw : String) (cs₁ cs₂ : List String) (c : String)
    (kvs : List (String × JVal)) (fld : String)
    (hc : findCandidates raw = cs₁ ++ c :: cs₂)
    (hskip : ∀ x ∈ cs₁, jsonParseObj x = none)
    (hp : jsonParseObj c = some kvs)
    (hm : firstMissing kvs = some fld) :
    parseModelOutput raw = Except.error (missingMsg fld) := by
  unfold parseModelOutput extractJson
  rw [hc, extractLoop_append_none _ _ hskip]
  simp [extractLoop, hp, hm]

/-- Witness for C2 at c2text: the row fails with the missing-payee error
even though a later candidate carries all five keys. -/
theorem c2_missing_key_fatal_witness :
    parseModelOutput c2text = Except.error (missingMsg "payee")
    ∧ jsonParseObj c2cand1 = none
    ∧ jsonParseObj c2cand2 = some [("date", JVal.jint 1)]
    ∧ firstMissing [("date", JVal.jint 1)] = some "payee"
    ∧ (jsonParseObj c2cand3).isSome = true := by
  refine ⟨?_, rfl, rfl, rfl, rfl⟩
  exact c2_missing_key_fatal c2text [c2cand1] [c2cand3] c2cand2 [("date", JVal.jint 1)]
    "payee" (by decide)
    (by intro x hx; rw [List.mem_singleton] at hx; rw [hx]; rfl) rfl rfl

/-! C3: behaviour when no candidate decodes — the CSV fallback. -/

/-- Text with no brace-delimited candidate whose last line has five CSV
fields, the fifth not float-coercible. -/
def c3text : String := "a,b,c,d,e"

/-- C3 (as frozen, refuted): the claim says that when no candidate decodes
and the last non-empty line CSV-parses with exactly five fields, the
Extractor returns the resulting record.  On c3text the field count is five
and CSV parsing succeeds, yet the code fails: the fifth field must also
coerce to float (the uncaught float() ValueError fails the row). -/
theorem c3_counterexample :
    findCandidates c3text = []
    ∧ csvParseLine c3text = ["a", "b", "c", "d", "e"]
    ∧ lastLine c3text = some c3text
    ∧ parseModelOutput c3text = Except.error csvAmountMsg := by
  exact ⟨by decide, by decide, by decide, by decide⟩

/-- C3 (amended): when no brace-delimited candidate decodes (or none is
found), the Extractor runs the CSV fallback on the last non-empty line:
no such line, a field count other than five, or a fifth field that does
not coerce to float each fail the row; otherwise the record is built from
the five fields in order date, payee, notes, category, amount, with the
fifth coerced to float. -/
theorem c3_csv_fallback (raw : String)
    (h : ∀ c ∈ findCandidates raw, jsonParseObj c = none) :
    parseModelOutput raw = parseCsvFallback raw
    ∧ (lastLine raw = none → parseModelOutput raw = Except.error noLinesMsg)
    ∧ (∀ row, lastLine raw = some row → (csvParseLine row).length ≠ 5 →
        parseModelOutput raw = Except.error fieldCountMsg)
    ∧ (∀ row, lastLine raw = some row → (csvParseLine row).length = 5 →
        pyFloatOfString ((csvParseLine row).getD 4 "") = none →
        parseModelOutput raw = Except.error csvAmountMsg)
    ∧ (∀ row f, lastLine raw = some row → (csvParseLine row).length = 5 →
        pyFloatOfString ((csvParseLine row).getD 4 "") = some f →
        parseModelOutput raw =
          Except.ok (TxnRecord.mk ((csvParseLine row).getD 0 "") ((csvParseLine row).getD 1 "")
            ((csvParseLine row).getD 2 "") ((csvParseLine row).getD 3 "") f)) := by
  have hnothing : extractJson raw = ExtractOut.nothing := extractLoop_all_none h
  have hmain : parseModelOutput raw = parseCsvFallback raw := by
    unfold parseModelOutput
    rw [hnothing]
  refine ⟨hmain, ?_, ?_, ?_, ?_⟩
  · intro hl
    rw [hmain]
    unfold parseCsvFallback
    rw [hl]
  · intro row hl hn
    rw [hmain]
    unfold parseCsvFallback
    simp only [hl, if_neg hn]
  · intro row hl h5 hf
    rw [hmain]
    unfold parseCsvFallback
    simp only [hl, if_pos h5, hf]
  · intro row f hl h5 hf
    rw [hmain]
    unfold parseCsvFallback
    simp only [hl, if_pos h5, hf]

/-- A braceless text whose last non-empty line is a well-formed 5-field CSV
row. -/
def c3good : String := "some commentary\n1,2,3,4,5"

/-- Witness for C3 (amended) at c3good. -/
theorem c3_csv_fallback_witness :
    parseModelOutput c3good =
      Except.ok (TxnRecord.mk "1" "2" "3" "4" (PyFloat.finite 5)) := by
  have h := (c3_csv_fallback c3good (no_candidates_none (by decide))).2.2.2.2 "1,2,3,4,5"
    (PyFloat.finite 5) (by decide) (by decide) (by decide)
  exact h.trans (by decide)

/-! C4: which direction the Category Memory substring match runs. -/

/-- A lookup over a table whose first row matches hits that row. -/
theorem lookup_cons_hit (e : String × String) (db : List (String × String)) (payee : String)
    (h : containsSub (pyUpper payee).data (pyUpper e.1).data = true) :
    lookup_category_in_db (e :: db) payee = some (pyUpper e.2) := by
  simp [lookup_category_in_db, List.find?, h]

/-- A lookup over a table whose first row does not match skips it. -/
theorem lookup_cons_miss (e : String × String) (db : List (String × String)) (payee : String)
    (h : containsSub (pyUpper payee).data (pyUpper e.1).data = false) :
    lookup_category_in_db (e :: db) payee = lookup_category_in_db db payee := by
  simp [lookup_category_in_db, List.find?, h]

/-- C4 (as frozen, refuted): the claim says a stored key contained in the
queried payee matches.  With the single stored entry ACME and the query
ACME CORP — the stored key a proper substring of the query — the lookup
finds nothing: the ILIKE pattern only matches when the query is contained
in the stored key, not the other way round. -/
theorem c4_counterexample :
    containsSub (pyUpper "ACME").data (pyUpper "ACME CORP").data = true
    ∧ lookup_category_in_db [("ACME", "SHOPPING")] "ACME CORP" = none := by
  exact ⟨by decide, by decide⟩

/-- C4 (amended): lookup(payee) returns a category exactly when some stored
entry has the upper-cased query as a substring of its upper-cased key (the
one direction the ILIKE pattern checks); the result is the upper-cased
category of the first such entry in storage order. -/
theorem c4_lookup_characterization (db : List (String × String)) (payee cat : String) :
    lookup_category_in_db db payee = some cat ↔
      ∃ pre k c post, db = pre ++ (k, c) :: post
        ∧ containsSub (pyUpper payee).data (pyUpper k).data = true
        ∧ (∀ e ∈ pre, containsSub (pyUpper payee).data (pyUpper e.1).data = false)
        ∧ cat = pyUpper c := by
  induction db with
  | nil =>
    constructor
    · intro h
      simp [lookup_category_in_db] at h
    · rintro ⟨pre, k, c, post, habs, -, -, -⟩
      cases pre <;> simp at habs
  | cons e rest ih =>
    cases hpred : containsSub (pyUpper payee).data (pyUpper e.1).data with
    | true =>
      rw [lookup_cons_hit e rest payee hpred]
      constructor
      · intro h
        refine ⟨[], e.1, e.2, rest, by simp, hpred, by simp, ?_⟩
        cases h
        rfl
      · rintro ⟨pre, k, c, post, hdb, hk, hpre, hcat⟩
        cases pre with
        | nil =>
          simp only [List.nil_append] at hdb
          have he : e = (k, c) := (List.cons_eq_cons.mp hdb).1
          rw [hcat, he]
        | cons p pre2 =>
          have hp0 : containsSub (pyUpper payee).data (pyUpper p.1).data = false :=
            hpre p (by simp)
          have he : p = e := (List.cons_eq_cons.mp hdb).1.symm
          rw [he, hpred] at hp0
          cases hp0
    | false =>
      rw [lookup_cons_miss e rest payee hpred, ih]
      constructor
      · rintro ⟨pre, k, c, post, hdb, hk, hpre, hcat⟩
        refine ⟨e :: pre, k, c, post, by rw [hdb, List.cons_append], hk, ?_, hcat⟩
        intro x hx
        rcases List.mem_cons.mp hx with hx1 | hx2
        · rw [hx1]
          exact hpred
        · exact hpre x hx2
      · rintro ⟨pre, k, c, post, hdb, hk, hpre, hcat⟩
        cases pre with
        | nil =>
          simp only [List.nil_append] at hdb
          have he : e = (k, c) := (List.cons_eq_cons.mp hdb).1
          rw [he] at hpred
          simp only at hpred
          rw [hpred] at hk
          cases hk
        | cons p pre2 =>
          have hdb2 := List.cons_eq_cons.mp hdb
          refine ⟨pre2, k, c, post, hdb2.2, hk, ?_, hcat⟩
          intro x hx
          exact hpre x (by simp [hx])

/-- Witness for C4 (amended): a later entry whose key contains the query is
found past a non-matching first entry, upper-cased. -/
theorem c4_lookup_characterization_witness :
    lookup_category_in_db [("XX", "a"), ("MY SHOP LTD", "food")] "my shop" = some "FOOD" := by
  exact (c4_lookup_characterization [("XX", "a"), ("MY SHOP LTD", "food")] "my shop" "FOOD").mpr
    ⟨[("XX", "a")], "MY SHOP LTD", "food", [], rfl, by decide, by decide, by decide⟩

/-! C5: idempotent first-write-wins recording. -/

/-- A character list is a prefix of itself. -/
theorem isPrefB_refl (l : List Char) : isPrefB l l = true := by
  induction l with
  | nil => rfl
  | cons c rest ih => simp [isPrefB, ih]

/-- A character list occurs in itself. -/
theorem containsSub_refl (l : List Char) : containsSub l l = true := by
  cases l with
  | nil => rfl
  | cons c rest => simp [containsSub, isPrefB_refl]

/-- C5 (as frozen, refuted): the claim quantifies over every memory state
and asserts the entry for the payee is c1 after record(p, c1) followed by
record(p, c2).  Starting from a state that already stores (ACME, FOOD),
recording (ACME, SHOPPING) and then (ACME, X) leaves FOOD, not SHOPPING:
the first write that wins is the pre-existing one, not c1. -/
theorem c5_counterexample :
    add_category_to_db (add_category_to_db [("ACME", "FOOD")] "ACME" "SHOPPING") "ACME" "X"
      = [("ACME", "FOOD")]
    ∧ exactVal
        (add_category_to_db (add_category_to_db [("ACME", "FOOD")] "ACME" "SHOPPING") "ACME" "X")
        "ACME" = some "FOOD"
    ∧ ("FOOD" : String) ≠ "SHOPPING" := by
  exact ⟨by decide, by decide, by decide⟩

/-- C5 (amended): record inserts only when no entry with the exact payee
key exists, and a second record for the same payee is always a no-op.  When
the initial state has no entry with exact key p, the stored entry for p
after record(p, c1) (and after the no-op second call) is c1; and when
additionally no stored key contains the upper-cased p, lookup(p) returns
the upper-cased c1. -/
theorem c5_record_first_write (db : List (String × String)) (p c1 c2 : String) :
    add_category_to_db (add_category_to_db db p c1) p c2 = add_category_to_db db p c1
    ∧ ((∀ e ∈ db, e.1 ≠ p) → exactVal (add_category_to_db db p c1) p = some c1)
    ∧ ((∀ e ∈ db, e.1 ≠ p) →
        (∀ e ∈ db, containsSub (pyUpper p).data (pyUpper e.1).data = false) →
        lookup_category_in_db (add_category_to_db db p c1) p = some (pyUpper c1)) := by
  refine ⟨?_, ?_, ?_⟩
  · cases hany : db.any (fun e => e.1 = p) with
    | true => simp [add_category_to_db, hany]
    | false => simp [add_category_to_db, hany, List.any_append]
  · intro hne
    have hany : db.any (fun e => e.1 = p) = false := by
      simp only [List.any_eq_false, decide_eq_true_eq]
      exact hne
    have hnone : db.find? (fun e => e.1 = p) = none := by
      rw [List.find?_eq_none]
      intro x hx
      simp only [decide_eq_true_eq]
      exact hne x hx
    simp [add_category_to_db, hany, exactVal, List.find?_append, hnone, List.find?]
  · intro hne hsub
    have hany : db.any (fun e => e.1 = p) = false := by
      simp only [List.any_eq_false, decide_eq_true_eq]
      exact hne
    have hnone : db.find? (fun e => containsSub (pyUpper p).data (pyUpper e.1).data) = none := by
      rw [List.find?_eq_none]
      intro x hx
      simp only [Bool.not_eq_true]
      exact hsub x hx
    simp [add_category_to_db, hany, lookup_category_in_db, List.find?_append, hnone,
      List.find?, containsSub_refl]

/-- Witness for C5 (amended) from the empty memory. -/
theorem c5_record_first_write_witness :
    add_category_to_db (add_category_to_db [] "ACME CORP" "shopping") "ACME CORP" "X"
      = add_category_to_db [] "ACME CORP" "shopping"
    ∧ exactVal (add_category_to_db [] "ACME CORP" "shopping") "ACME CORP" = some "shopping"
    ∧ lookup_category_in_db (add_category_to_db [] "ACME CORP" "shopping") "ACME CORP"
        = some "SHOPPING" := by
  have h := c5_record_first_write [] "ACME CORP" "shopping" "X"
  refine ⟨h.1, h.2.1 (by simp), ?_⟩
  have h3 := h.2.2 (by simp) (by simp)
  exact h3.trans (by decide)

/-! C6: category pre-seed before the model request, learn-back after it. -/

/-- C6 (confirmed): on every row, when the memory lookup of the upper-cased
payee hint finds a (truthy) category, the row sent to the model carries
that category in its category field and no record call is made afterwards,
whatever the extraction outcome; when the lookup finds nothing (or an empty
category, which Python truthiness treats the same), the row is sent
unchanged and exactly one record(payeeHint, category) call is made — if and
only if extraction succeeded with a non-empty category. -/
theorem c6_preseed_and_learn (llm : List (String × String) → String)
    (db row : List (String × String)) :
    (∀ c, lookup_category_in_db db (payeeHint row) = some c → c ≠ "" →
      (parse_transaction llm db row).sentRow = dictSet row "category" c
      ∧ (parse_transaction llm db row).recorded = []
      ∧ (parse_transaction llm db row).dbAfter = db)
    ∧ ((lookup_category_in_db db (payeeHint row)).getD "" = "" →
      (parse_transaction llm db row).sentRow = row
      ∧ (∀ txn, (parse_transaction llm db row).result = Except.ok txn → txn.category ≠ "" →
          (parse_transaction llm db row).recorded = [(payeeHint row, txn.category)]
          ∧ (parse_transaction llm db row).dbAfter
            = add_category_to_db db (payeeHint row) txn.category)
      ∧ (∀ txn, (parse_transaction llm db row).result = Except.ok txn → txn.category = "" →
          (parse_transaction llm db row).recorded = []
          ∧ (parse_transaction llm db row).dbAfter = db)
      ∧ (∀ m, (parse_transaction llm db row).result = Except.error m →
          (parse_transaction llm db row).recorded = []
          ∧ (parse_transaction llm db row).dbAfter = db)) := by
  constructor
  · intro c hc hcne
    have hs : (c != "") = true := bne_iff_ne.mpr hcne
    cases hres : parseModelOutput (llm (dictSet row "category" c)) with
    | error m =>
      refine ⟨?_, ?_, ?_⟩ <;> simp [parse_transaction, hc, hs, hres]
    | ok txn =>
      refine ⟨?_, ?_, ?_⟩ <;> simp [parse_transaction, hc, hs, hres]
  · intro h0
    have hseed : ((lookup_category_in_db db (payeeHint row)).getD "" != "") = false := by
      rw [h0]
      rfl
    cases hres : parseModelOutput (llm row) with
    | error m =>
      have hstep : parse_transaction llm db row
          = AgentStep.mk (Except.error m) db row [] := by
        simp [parse_transaction, hseed, hres]
      refine ⟨by rw [hstep], ?_, ?_, ?_⟩
      · intro txn htxn hcat
        rw [hstep] at htxn
        cases htxn
      · intro txn htxn hcat
        rw [hstep] at htxn
        cases htxn
      · intro m2 hm
        rw [hstep]
        exact ⟨rfl, rfl⟩
    | ok txn0 =>
      by_cases hcc : txn0.category = ""
      · have hstep : parse_transaction llm db row
            = AgentStep.mk (Except.ok txn0) db row [] := by
          simp [parse_transaction, hseed, hres, hcc]
        refine ⟨by rw [hstep], ?_, ?_, ?_⟩
        · intro txn htxn hcat
          rw [hstep] at htxn
          injection htxn with h1
          rw [← h1] at hcat
          exact absurd hcc hcat
        · intro txn htxn hcat
          rw [hstep]
          exact ⟨rfl, rfl⟩
        · intro m hm
          rw [hstep] at hm
          cases hm
      · have hstep : parse_transaction llm db row
            = AgentStep.mk (Except.ok txn0)
                (add_category_to_db db (payeeHint row) txn0.category) row
                [(payeeHint row, txn0.category)] := by
          simp [parse_transaction, hseed, hres, hcc]
        refine ⟨by rw [hstep], ?_, ?_, ?_⟩
        · intro txn htxn hcat
          rw [hstep] at htxn
          injection htxn with h1
          rw [hstep, ← h1]
          exact ⟨rfl, rfl⟩
        · intro txn htxn hcat
          rw [hstep] at htxn
          injection htxn with h1
          rw [← h1] at hcat
          exact absurd hcat hcc
        · intro m hm
          rw [hstep] at hm
          cases hm

/-- One stored association whose key contains the hit row's payee hint. -/
def c6db : List (String × String) := [("ACME SUPER STORE", "Food")]

/-- A row whose payee hint hits c6db. -/
def c6rowHit : List (String × String) := [("payee", "Acme Super"), ("category", "")]

/-- A row whose payee hint misses the empty memory. -/
def c6rowMiss : List (String × String) := [("payee", "Corner Shop")]

/-- A model response with all five keys and category market. -/
def c6resp : String :=
  "\x7b\"date\": \"d\", \"payee\": \"p\", \"notes\": \"n\", \"category\": \"market\", \"amount\": 3\x7d"

/-- Witness for C6 at a memory hit (pre-seed, no record call) and at a miss
(one record call with the payee hint and the extracted category). -/
theorem c6_preseed_and_learn_witness :
    (parse_transaction (fun _ => c6resp) c6db c6rowHit).sentRow
      = [("payee", "Acme Super"), ("category", "FOOD")]
    ∧ (parse_transaction (fun _ => c6resp) c6db c6rowHit).recorded = []
    ∧ (parse_transaction (fun _ => c6resp) [] c6rowMiss).recorded = [("CORNER SHOP", "MARKET")]
    ∧ (parse_transaction (fun _ => c6resp) [] c6rowMiss).dbAfter
      = [("CORNER SHOP", "MARKET")] := by
  have hA := (c6_preseed_and_learn (fun _ => c6resp) c6db c6rowHit).1 "FOOD"
    (by decide) (by decide)
  have hB := ((c6_preseed_and_learn (fun _ => c6resp) [] c6rowMiss).2 (by decide)).2.1
    (TxnRecord.mk "D" "P" "N" "MARKET" (PyFloat.finite 3)) (by decide) (by decide)
  exact ⟨hA.1.trans (by decide), hA.2.1, hB.1.trans (by decide), hB.2.trans (by decide)⟩

/-! C7: output row order equals input row order, whatever the completion
order. -/

/-- When every row succeeds, the collection loop fills exactly the slots of
the indices that completed, each with the record of its own index. -/
theorem collectLoop_allok (txns : List TxnRecord) :
    ∀ (order : List Nat) (acc : List (Option TxnRecord)),
    (∀ i ∈ order, i < txns.length) → acc.length = txns.length →
    ∃ res, collectLoop (txns.map Except.ok) order acc = Except.ok res
      ∧ res.length = txns.length
      ∧ ∀ j, res[j]? = if j ∈ order then (txns.map some)[j]? else acc[j]? := by
  intro order
  induction order with
  | nil =>
    intro acc hmem hlen
    exact ⟨acc, rfl, hlen, by intro j; simp⟩
  | cons i rest ih =>
    intro acc hmem hlen
    have hi : i < txns.length := hmem i (by simp)
    have hrow : (txns.map Except.ok).getD i (Except.error "index out of range")
        = Except.ok (txns.get ⟨i, hi⟩) := by
      rw [List.getD_eq_getElem?_getD, List.getElem?_map, List.getElem?_eq_getElem hi]
      rfl
    obtain ⟨res, hco, hlen2, hsl⟩ := ih (acc.set i (some (txns.get ⟨i, hi⟩)))
      (fun j hj => hmem j (List.mem_cons_of_mem i hj)) (by simp [hlen])
    refine ⟨res, ?_, hlen2, ?_⟩
    · simp only [collectLoop, hrow]
      exact hco
    · intro j
      rw [hsl j]
      by_cases hjr : j ∈ rest
      · simp [hjr]
      · by_cases hji : j = i
        · subst hji
          have hja : j < acc.length := by rw [hlen]; exact hi
          simp [hjr, List.getElem?_set_self hja, List.getElem?_map,
            List.getElem?_eq_getElem hi]
        · have hjc : ¬ j ∈ i :: rest := by
            intro hin
            rcases List.mem_cons.mp hin with h1 | h2
            · exact hji h1
            · exact hjr h2
          simp [hjr, hjc, List.getElem?_set_ne (fun he => hji he.symm)]

/-- C7 (confirmed): with every row succeeding and the upload succeeding,
the job completes and the uploaded table is exactly the input-order list of
normalized records — the k-th output row is the record of the k-th input
row for every completion order (the output component does not mention the
completion order at all; only the in-memory category and payee sets
depend on it). -/
theorem c7_output_order (txns : List TxnRecord) (order : List Nat) (st : JobState)
    (hperm : order.Perm (List.range txns.length)) :
    run_job (Except.ok (txns.map Except.ok)) order true st
      = JobState.mk "completed" st.errMsg true
          (foldSets (txns.map Except.ok) order st.catsFile st.paysFile).1
          (foldSets (txns.map Except.ok) order st.catsFile st.paysFile).2
          (some (txns.map some)) := by
  have hmem : ∀ i ∈ order, i < txns.length := fun i hi =>
    List.mem_range.mp (hperm.mem_iff.mp hi)
  obtain ⟨res, hco, hlen, hsl⟩ := collectLoop_allok txns order
    (List.replicate (txns.map Except.ok).length none) hmem (by simp)
  have hres : res = txns.map some := by
    apply List.ext_getElem?
    intro j
    rw [hsl j]
    by_cases hj : j < txns.length
    · have hjo : j ∈ order := hperm.mem_iff.mpr (List.mem_range.mpr hj)
      simp [hjo]
    · have hjo : ¬ j ∈ order := fun hin => hj (hmem j hin)
      have hnone : txns[j]? = none := by
        rw [List.getElem?_eq_none]
        exact Nat.le_of_not_lt hj
      simp [hjo, List.getElem?_replicate, List.length_map, hj, hnone, List.getElem?_map]
  simp only [run_job]
  split
  · rename_i m heq
    rw [hco] at heq
    cases heq
  · rename_i slots heq
    rw [hco] at heq
    injection heq with h1
    rw [← h1, hres]
    rfl

/-- Two distinct records for the C7 witness. -/
def c7t1 : TxnRecord := TxnRecord.mk "D1" "P1" "N1" "C1" (PyFloat.finite 1)

/-- Second record for the C7 witness. -/
def c7t2 : TxnRecord := TxnRecord.mk "D2" "P2" "N2" "C2" (PyFloat.finite 2)

/-- Witness for C7 with two rows completing in reverse order. -/
theorem c7_output_order_witness :
    (run_job (Except.ok ([c7t1, c7t2].map Except.ok)) [1, 0] true
        (JobState.mk "pending" none false [] [] none)).output
      = some [some c7t1, some c7t2] := by
  have h := c7_output_order [c7t1, c7t2] [1, 0]
    (JobState.mk "pending" none false [] [] none) (by decide)
  rw [h]
  rfl

/-! C8: what a failing run leaves behind. -/

/-- A failing row reachable in the completion order makes the collection
loop re-raise some row error. -/
theorem collectLoop_mem_error (rows : List (Except String TxnRecord)) :
    ∀ (order : List Nat) (acc : List (Option TxnRecord)) (i : Nat) (m : String),
    i ∈ order → rows.getD i (Except.error "index out of range") = Except.error m →
    ∃ m2, collectLoop rows order acc = Except.error m2 := by
  intro order
  induction order with
  | nil =>
    intro acc i m hi
    cases hi
  | cons j rest ih =>
    intro acc i m hi hrow
    cases hj : rows.getD j (Except.error "index out of range") with
    | error m2 =>
      refine ⟨m2, ?_⟩
      simp only [collectLoop]
      rw [hj]
    | ok t =>
      have hij : i ≠ j := by
        intro he
        rw [he, hj] at hrow
        cases hrow
      have hirest : i ∈ rest := by
        rcases List.mem_cons.mp hi with h1 | h2
        · exact absurd h1 hij
        · exact h2
      obtain ⟨m2, hm2⟩ := ih (acc.set j (some t)) i m hirest hrow
      refine ⟨m2, ?_⟩
      simp only [collectLoop]
      rw [hj]
      exact hm2

/-- When every row reachable in the completion order succeeds, the
collection loop succeeds. -/
theorem collectLoop_ok_of_all (rows : List (Except String TxnRecord)) :
    ∀ (order : List Nat) (acc : List (Option TxnRecord)),
    (∀ i ∈ order, ∃ t, rows.getD i (Except.error "index out of range") = Except.ok t) →
    ∃ res, collectLoop rows order acc = Except.ok res := by
  intro order
  induction order with
  | nil =>
    intro acc h
    exact ⟨acc, rfl⟩
  | cons j rest ih =>
    intro acc h
    obtain ⟨t, ht⟩ := h j (by simp)
    obtain ⟨res, hres⟩ := ih (acc.set j (some t)) (fun i hi => h i (List.mem_cons_of_mem j hi))
    refine ⟨res, ?_⟩
    simp only [collectLoop]
    rw [ht]
    exact hres

/-- C8 (as frozen, refuted on its backing-files part): with one row that
normalizes (category FOOD) and a failing output upload, the job does end in
error with no output uploaded — but the known-categories backing file has
already been rewritten with FOOD before the upload was attempted, so it is
not at its pre-run (empty) contents although a step of output writing
failed. -/
theorem c8_counterexample :
    (run_job (Except.ok [Except.ok (TxnRecord.mk "D" "P" "N" "FOOD" (PyFloat.finite 1))])
        [0] false (JobState.mk "pending" none false [] [] none)).status = "error"
    ∧ (run_job (Except.ok [Except.ok (TxnRecord.mk "D" "P" "N" "FOOD" (PyFloat.finite 1))])
        [0] false (JobState.mk "pending" none false [] [] none)).output = none
    ∧ (run_job (Except.ok [Except.ok (TxnRecord.mk "D" "P" "N" "FOOD" (PyFloat.finite 1))])
        [0] false (JobState.mk "pending" none false [] [] none)).catsFile = ["FOOD"]
    ∧ ["FOOD"] ≠ ([] : List String) := by
  exact ⟨by decide, by decide, by decide, by decide⟩

/-- C8 (amended): the runner is a total function (nothing escapes its
boundary), and: an input-parsing failure or any failing row marks the job
error with a message and a completion timestamp, uploads no output and
leaves both backing files at their pre-run contents; when every row
succeeds but the output upload fails, the job is likewise marked error with
no output — but the two backing files have by then been rewritten with the
in-run category and payee sets. -/
theorem c8_error_containment (inputRes : Except String (List (Except String TxnRecord)))
    (order : List Nat) (uploadOk : Bool) (st : JobState) :
    (∀ m, inputRes = Except.error m →
      run_job inputRes order uploadOk st
        = JobState.mk "error" (some m) true st.catsFile st.paysFile st.output)
    ∧ (∀ rows i m, inputRes = Except.ok rows → i ∈ order →
        rows.getD i (Except.error "index out of range") = Except.error m →
        (run_job inputRes order uploadOk st).status = "error"
        ∧ (run_job inputRes order uploadOk st).errMsg.isSome = true
        ∧ (run_job inputRes order uploadOk st).completedAt = true
        ∧ (run_job inputRes order uploadOk st).output = st.output
        ∧ (run_job inputRes order uploadOk st).catsFile = st.catsFile
        ∧ (run_job inputRes order uploadOk st).paysFile = st.paysFile)
    ∧ (∀ rows, inputRes = Except.ok rows →
        (∀ i ∈ order, ∃ t, rows.getD i (Except.error "index out of range") = Except.ok t) →
        uploadOk = false →
        (run_job inputRes order uploadOk st).status = "error"
        ∧ (run_job inputRes order uploadOk st).errMsg = some uploadFailMsg
        ∧ (run_job inputRes order uploadOk st).completedAt = true
        ∧ (run_job inputRes order uploadOk st).output = st.output
        ∧ (run_job inputRes order uploadOk st).catsFile
          = (foldSets rows order st.catsFile st.paysFile).1
        ∧ (run_job inputRes order uploadOk st).paysFile
          = (foldSets rows order st.catsFile st.paysFile).2) := by
  refine ⟨?_, ?_, ?_⟩
  · intro m hm
    subst hm
    rfl
  · intro rows i m hin hi hrow
    subst hin
    obtain ⟨m2, hm2⟩ := collectLoop_mem_error rows order
      (List.replicate rows.length none) i m hi hrow
    have hrun : run_job (Except.ok rows) order uploadOk st
        = JobState.mk "error" (some m2) true st.catsFile st.paysFile st.output := by
      simp only [run_job]
      split
      · rename_i m3 heq
        rw [hm2] at heq
        injection heq with h1
        rw [h1]
        rfl
      · rename_i slots heq
        rw [hm2] at heq
        cases heq
    rw [hrun]
    exact ⟨rfl, rfl, rfl, rfl, rfl, rfl⟩
  · intro rows hin hall hup
    subst hin
    subst hup
    obtain ⟨res, hres⟩ := collectLoop_ok_of_all rows order
      (List.replicate rows.length none) hall
    have hrun : run_job (Except.ok rows) order false st
        = JobState.mk "error" (some uploadFailMsg) true
            (foldSets rows order st.catsFile st.paysFile).1
            (foldSets rows order st.catsFile st.paysFile).2 st.output := by
      simp only [run_job]
      split
      · rename_i m3 heq
        rw [hres] at heq
        cases heq
      · rename_i slots heq
        rw [hres] at heq
        injection heq with h1
        rfl
    rw [hrun]
    exact ⟨rfl, rfl, rfl, rfl, rfl, rfl⟩

/-- Witness for C8 (amended): a failing middle row among three leaves the
job in error with no output and the empty backing files untouched. -/
theorem c8_error_containment_witness :
    (run_job (Except.ok [Except.ok c7t1, Except.error "boom", Except.ok c7t2]) [2, 1, 0] true
        (JobState.mk "pending" none false [] [] none)).status = "error"
    ∧ (run_job (Except.ok [Except.ok c7t1, Except.error "boom", Except.ok c7t2]) [2, 1, 0] true
        (JobState.mk "pending" none false [] [] none)).output = none
    ∧ (run_job (Except.ok [Except.ok c7t1, Except.error "boom", Except.ok c7t2]) [2, 1, 0] true
        (JobState.mk "pending" none false [] [] none)).catsFile = [] := by
  have h := (c8_error_containment
      (Except.ok [Except.ok c7t1, Except.error "boom", Except.ok c7t2]) [2, 1, 0] true
      (JobState.mk "pending" none false [] [] none)).2.1
    [Except.ok c7t1, Except.error "boom", Except.ok c7t2] 1 "boom" rfl (by decide) (by decide)
  exact ⟨h.1, h.2.2.2.1, h.2.2.2.2.1⟩

/-! C9: amount coercion and finiteness. -/

/-- A candidate whose amount is the string inf. -/
def c9text : String :=
  "\x7b\"date\": \"d\", \"payee\": \"p\", \"notes\": \"n\", \"category\": \"c\", \"amount\": \"inf\"\x7d"

/-- C9 (as frozen, refuted): the claim requires a row whose amount coerces
to an infinite or NaN float to fail.  float parses inf to the infinite
value and the extractor accepts it: on c9text the row succeeds with an
infinite amount instead of failing. -/
theorem c9_counterexample :
    pyFloatOfString "inf" = some PyFloat.inf
    ∧ parseModelOutput c9text = Except.ok (TxnRecord.mk "D" "P" "N" "C" PyFloat.inf) := by
  exact ⟨by decide, by decide⟩

/-- C9 (amended): for the first decoded candidate carrying all five keys,
the row fails exactly when float() does not accept the amount value; every
value float() accepts — including the non-finite inf, -inf and nan — is
returned as the record amount.  Finiteness is not checked. -/
theorem c9_amount_coercion (raw : String) (cs₁ cs₂ : List String) (c : String)
    (kvs : List (String × JVal)) (va : JVal)
    (hc : findCandidates raw = cs₁ ++ c :: cs₂)
    (hskip : ∀ x ∈ cs₁, jsonParseObj x = none)
    (hp : jsonParseObj c = some kvs)
    (hm : firstMissing kvs = none)
    (h5 : jget kvs "amount" = some va) :
    (pyFloatOfJVal va = none → parseModelOutput raw = Except.error amountMsg)
    ∧ (∀ f, pyFloatOfJVal va = some f →
        ∃ t, parseModelOutput raw = Except.ok t ∧ t.amount = f) := by
  unfold parseModelOutput extractJson
  rw [hc, extractLoop_append_none _ _ hskip]
  simp only [extractLoop, hp, hm]
  constructor
  · intro hn
    simp [mkJsonTxn, h5, hn]
  · intro f hf
    refine ⟨TxnRecord.mk (sanitizeVal ((jget kvs "date").getD JVal.jnull))
      (sanitizeVal ((jget kvs "payee").getD JVal.jnull))
      (sanitizeVal (nullToEmpty ((jget kvs "notes").getD JVal.jnull)))
      (sanitizeVal (nullToEmpty ((jget kvs "category").getD JVal.jnull))) f, ?_, rfl⟩
    simp [mkJsonTxn, h5, hf]

/-- A candidate whose amount is the string 2.5. -/
def c9wtext : String :=
  "\x7b\"date\": \"d\", \"payee\": \"p\", \"notes\": \"n\", \"category\": \"c\", \"amount\": \"2.5\"\x7d"

/-- Witness for C9 (amended) at a finite string amount. -/
theorem c9_amount_coercion_witness :
    ∃ t, parseModelOutput c9wtext = Except.ok t ∧ t.amount = PyFloat.finite (mkRat 5 2) := by
  have h := (c9_amount_coercion c9wtext [] [] c9wtext
      [("date", JVal.jstr "d"), ("payee", JVal.jstr "p"), ("notes", JVal.jstr "n"),
       ("category", JVal.jstr "c"), ("amount", JVal.jstr "2.5")]
      (JVal.jstr "2.5") (by decide) (by simp) rfl rfl rfl).2
    (PyFloat.finite (mkRat 5 2)) (by decide)
  exact h

/-! C10: sanitization on the JSON path only. -/

/-- All characters are in the canonical set capital letters, digits,
space. -/
def isCanonStr (s : String) : Bool := s.data.all isCanonChar

/-- Sanitized strings are canonical. -/
theorem sanitizePy_canon (s : String) : isCanonStr (sanitizePy s) = true := by
  simp only [isCanonStr, sanitizePy, List.all_eq_true]
  intro c hc
  exact List.of_mem_filter hc

/-- A record built on the JSON path has canonical string fields. -/
theorem mkJsonTxn_ok_canon {kvs : List (String × JVal)} {t : TxnRecord}
    (h : mkJsonTxn kvs = Except.ok t) :
    isCanonStr t.date = true ∧ isCanonStr t.payee = true
    ∧ isCanonStr t.notes = true ∧ isCanonStr t.category = true := by
  unfold mkJsonTxn at h
  cases hf : pyFloatOfJVal ((jget kvs "amount").getD JVal.jnull) with
  | none =>
    rw [hf] at h
    cases h
  | some f =>
    rw [hf] at h
    injection h with h1
    rw [← h1]
    exact ⟨sanitizePy_canon _, sanitizePy_canon _, sanitizePy_canon _, sanitizePy_canon _⟩

/-- Any record the JSON candidate loop returns has canonical string
fields. -/
theorem extractLoop_ok_canon :
    ∀ (cs : List String) (t : TxnRecord), extractLoop cs = ExtractOut.found (Except.ok t) →
    isCanonStr t.date = true ∧ isCanonStr t.payee = true
    ∧ isCanonStr t.notes = true ∧ isCanonStr t.category = true := by
  intro cs
  induction cs with
  | nil =>
    intro t h
    cases h
  | cons c rest ih =>
    intro t h
    simp only [extractLoop] at h
    cases hp : jsonParseObj c with
    | none =>
      simp only [hp] at h
      exact ih t h
    | some kvs =>
      simp only [hp] at h
      cases hm : firstMissing kvs with
      | some fld =>
        simp only [hm] at h
        injection h with h1
        cases h1
      | none =>
        simp only [hm] at h
        injection h with h1
        exact mkJsonTxn_ok_canon h1

/-- C10 (confirmed): every record produced through the JSON extraction path
has its four string fields sanitized unconditionally — they consist only of
capital letters, digits and spaces, with no configuration toggle anywhere
in the pipeline — whereas every record produced through the CSV fallback
path carries the four string fields exactly as csv.reader parsed them from
the last non-empty line, with no sanitization applied. -/
theorem c10_sanitization_paths :
    (∀ raw t, extractJson raw = ExtractOut.found (Except.ok t) →
      isCanonStr t.date = true ∧ isCanonStr t.payee = true
      ∧ isCanonStr t.notes = true ∧ isCanonStr t.category = true)
    ∧ (∀ raw row t, extractJson raw = ExtractOut.nothing → lastLine raw = some row →
        parseCsvFallback raw = Except.ok t →
        t.date = (csvParseLine row).getD 0 "" ∧ t.payee = (csvParseLine row).getD 1 ""
        ∧ t.notes = (csvParseLine row).getD 2 "" ∧ t.category = (csvParseLine row).getD 3 "") := by
  constructor
  · intro raw t h
    exact extractLoop_ok_canon (findCandidates raw) t h
  · intro raw row t hn hl h
    unfold parseCsvFallback at h
    simp only [hl] at h
    by_cases h5 : (csvParseLine row).length = 5
    · rw [if_pos h5] at h
      cases hf : pyFloatOfString ((csvParseLine row).getD 4 "") with
      | none =>
        rw [hf] at h
        cases h
      | some f =>
        rw [hf] at h
        injection h with h1
        rw [← h1]
        exact ⟨rfl, rfl, rfl, rfl⟩
    · rw [if_neg h5] at h
      cases h

/-- A JSON-path text with punctuation and lower case in the fields. -/
def c10json : String :=
  "\x7b\"date\": \"x\", \"payee\": \"Big Mall!\", \"notes\": \"\", \"category\": \"\", \"amount\": 4\x7d"

/-- A braceless text whose last line keeps lower-case CSV fields. -/
def c10csv : String := "a b,Low er,c,d,1"

/-- Witness for C10: the JSON path yields the canonical BIG MALL, while the
CSV path keeps the non-canonical field Low er verbatim. -/
theorem c10_sanitization_paths_witness :
    isCanonStr (TxnRecord.mk "X" "BIG MALL" "" "" (PyFloat.finite 4)).payee = true
    ∧ (TxnRecord.mk "a b" "Low er" "c" "d" (PyFloat.finite 1)).payee
      = (csvParseLine "a b,Low er,c,d,1").getD 1 ""
    ∧ isCanonStr "Low er" = false := by
  refine ⟨?_, ?_, by decide⟩
  · exact ((c10_sanitization_paths).1 c10json
      (TxnRecord.mk "X" "BIG MALL" "" "" (PyFloat.finite 4)) (by decide)).2.1
  · exact ((c10_sanitization_paths).2 c10csv "a b,Low er,c,d,1"
      (TxnRecord.mk "a b" "Low er" "c" "d" (PyFloat.finite 1))
      (by decide) (by decide) (by decide)).2.1

end ABNorm
